import Mathlib

/-!
Verification development for the personal-finance ledger
(`FinanceManager` in `main.py` / `main4.py`, HTTP front-end in `main2.py`).

Modelling conventions (shallow embedding of the Python source):
* Python `float` amounts are modelled as `ℚ` (exact arithmetic).
* Python `int` is `ℤ`.
* The JSON backing file is modelled at the level of parsed JSON values:
  a list of field dictionaries (`List (String × JVal)`), one per record.
  UTF-8 text encoding, whitespace and file-system corruption are below
  the abstraction level of this model.
* `datetime.strptime(s, "%Y-%m-%d")` is modelled by `parseDate`, following
  CPython's `_strptime` regular expression: `%Y` is exactly four digits,
  `%m` is one or two digits valued 1..12, `%d` one or two digits valued
  1..31, followed by the `datetime` constructor's semantic check
  (year ≥ 1, day ≤ days-in-month with Gregorian leap years).  Digits are
  modelled as ASCII `0-9`.
* `str.lower()` / `str.strip()` are modelled by `strLower` / `strTrim`
  (character-wise over the string's characters; the sources only
  exercise them on ASCII data).
* Exceptions are modelled with `Except` / `Option`; mutation of `self` is
  explicit state passing: an operation returns the final state together
  with either a normal result or the raised error.
* I/O success is an explicit boolean `io` given to the operations: `true`
  means the file write succeeds, `false` means it raises `OSError`-style
  failure with the file left unchanged.
-/

set_option autoImplicit false

namespace Finance

/-- A calendar date as produced by `datetime.strptime(s, "%Y-%m-%d")`. -/
structure Date where
  year : ℕ
  month : ℕ
  day : ℕ
deriving DecidableEq, Repr

/-- Gregorian leap-year test used by `datetime`. -/
def isLeap (y : ℕ) : Bool :=
  (y % 4 == 0 && y % 100 != 0) || (y % 400 == 0)

/-- Number of days in a month, as enforced by the `datetime` constructor. -/
def daysInMonth (y m : ℕ) : ℕ :=
  if m = 2 then (if isLeap y then 29 else 28)
  else if m = 4 ∨ m = 6 ∨ m = 9 ∨ m = 11 then 30
  else 31

/-- Numeric value of a digit string (most significant first). -/
def natOfDigits (l : List Char) : ℕ :=
  l.foldl (fun a c => a * 10 + (c.toNat - '0'.toNat)) 0

/-- `datetime.strptime(s, "%Y-%m-%d")`: `some` of the parsed date on
success, `none` when a `ValueError` is raised.  `%Y` matches exactly four
digits; `%m` / `%d` match one or two digits whose value is in range
(so unpadded forms such as "2025-1-5" are accepted); the whole string
must be consumed; finally `datetime(y, m, d)` checks `y ≥ 1` and that the
day exists in the month. -/
def parseDate (s : String) : Option Date :=
  match s.data.splitOn '-' with
  | [ys, ms, ds] =>
    if ys.length = 4 ∧ ys.all Char.isDigit
        ∧ 1 ≤ ms.length ∧ ms.length ≤ 2 ∧ ms.all Char.isDigit
        ∧ 1 ≤ ds.length ∧ ds.length ≤ 2 ∧ ds.all Char.isDigit then
      let y := natOfDigits ys
      let m := natOfDigits ms
      let d := natOfDigits ds
      if 1 ≤ y ∧ 1 ≤ m ∧ m ≤ 12 ∧ 1 ≤ d ∧ d ≤ daysInMonth y m then
        some ⟨y, m, d⟩
      else none
    else none
  | _ => none

/-- `datetime` comparison `a ≤ b`: lexicographic on (year, month, day). -/
def dateLE (a b : Date) : Bool :=
  a.year < b.year ||
    (a.year == b.year &&
      (a.month < b.month || (a.month == b.month && a.day ≤ b.day)))

/-- Python `sum` over a list of numbers: a left fold of `+` from `0`. -/
def pySum (l : List ℚ) : ℚ := l.foldl (· + ·) 0

/-- Python `str.lower()` (character-wise; the sources only exercise it
on ASCII data). -/
def strLower (s : String) : String := ⟨s.data.map Char.toLower⟩

/-- Python `str.strip()`: drop leading and trailing whitespace. -/
def strTrim (s : String) : String :=
  ⟨((s.data.dropWhile Char.isWhitespace).reverse.dropWhile Char.isWhitespace).reverse⟩

/-- Python truthiness of a string: `""` is falsy. -/
def strTruthy (s : String) : Bool := !s.data.isEmpty

/-- Code-point lexicographic `<` on character lists, as Python compares
`str` values. -/
def listLexLt : List Char → List Char → Bool
  | [], [] => false
  | [], _ :: _ => true
  | _ :: _, [] => false
  | a :: as, b :: bs => if a = b then listLexLt as bs else decide (a.toNat < b.toNat)

/-- Python `<` on strings. -/
def strLt (a b : String) : Bool := listLexLt a.data b.data

/-- Python `<=` on strings. -/
def strLe (a b : String) : Bool := strLt a b || a == b

/-- The `Transaction` dataclass (identical in `main.py` and `main4.py`). -/
structure Transaction where
  id : ℤ
  date : String
  type : String
  category : String
  description : String
  amount : ℚ
deriving DecidableEq, Repr

/-- A parsed JSON scalar, as found in the backing file's records. -/
inductive JVal where
  | jint (i : ℤ)
  | jnum (q : ℚ)
  | jstr (s : String)
deriving DecidableEq, Repr

/-- `dataclasses.asdict` on a `Transaction`, as serialized by `json.dump`. -/
def asdict (t : Transaction) : List (String × JVal) :=
  [("id", .jint t.id), ("date", .jstr t.date), ("type", .jstr t.type),
   ("category", .jstr t.category), ("description", .jstr t.description),
   ("amount", .jnum t.amount)]

/-- `data[k]`: `some` value, `none` for a raised `KeyError`. -/
def lookupField (d : List (String × JVal)) (k : String) : Option JVal :=
  match d with
  | [] => none
  | (k', v) :: rest => if k' = k then some v else lookupField rest k

/-- Python `int(x)` on a JSON scalar.  On a float it truncates toward
zero; coercion from strings is not exercised by the sources and is
modelled as failure. -/
def pyInt : JVal → Option ℤ
  | .jint i => some i
  | .jnum q => some (if 0 ≤ q then ⌊q⌋ else ⌈q⌉)
  | .jstr _ => none

/-- Python `float(x)` on a JSON scalar; coercion from strings is not
exercised by the sources and is modelled as failure. -/
def pyFloat : JVal → Option ℚ
  | .jint i => some (i : ℚ)
  | .jnum q => some q
  | .jstr _ => none

/-- Python `str`-typed field access (the sources store these as strings;
a non-string value would propagate unchanged, which the model rejects). -/
def pyStr : JVal → Option String
  | .jstr s => some s
  | _ => none

/-- `Transaction.from_dict`: `none` models a raised exception
(`KeyError` or a failed coercion). -/
def fromDict (d : List (String × JVal)) : Option Transaction := do
  let i ← (lookupField d "id").bind pyInt
  let date ← (lookupField d "date").bind pyStr
  let ty ← (lookupField d "type").bind pyStr
  let cat ← (lookupField d "category").bind pyStr
  let desc ← (lookupField d "description").bind pyStr
  let amt ← (lookupField d "amount").bind pyFloat
  pure ⟨i, date, ty, cat, desc, amt⟩

/-- The mutable state of a `FinanceManager`: the in-memory list and the
backing file's (parsed) content. -/
structure FMState where
  transactions : List Transaction
  file : List (List (String × JVal))
deriving DecidableEq, Repr

/-- Errors raised across the store boundary. -/
inductive FMError where
  | validationError (msg : String)
  | persistenceError
  | indexError
deriving DecidableEq, Repr

/-- Python `max` over a non-empty list (left fold of binary `max`);
the `[]` case is never reached by callers. -/
def maxOf : List ℤ → ℤ
  | [] => 0
  | [x] => x
  | x :: y :: rest => max x (maxOf (y :: rest))

/-- The ids of a list of transactions, in order. -/
def txIds (ts : List Transaction) : List ℤ := ts.map (·.id)

/-- `FinanceManager._next_id` (identical in both variants). -/
def nextId (ts : List Transaction) : ℤ :=
  match ts with
  | [] => 1
  | _ => maxOf (txIds ts) + 1

namespace Main

/-- `main.py` `FinanceManager._save`: serializes the in-memory list into
the file.  Any exception is caught and logged, so an I/O failure
(`io = false`) leaves the file unchanged and returns normally. -/
def save (io : Bool) (s : FMState) : FMState :=
  if io then { s with file := s.transactions.map asdict } else s

/-- The list comprehension of `_load`: deserialize every record,
propagating the first raised exception as `none`. -/
def loadRecords : List (List (String × JVal)) → Option (List Transaction)
  | [] => some []
  | d :: rest =>
    match fromDict d, loadRecords rest with
    | some t, some l => some (t :: l)
    | _, _ => none

/-- `main.py` `FinanceManager._load` run against an existing file:
deserializes every record; any exception during deserialization is
caught and the in-memory list falls back to `[]`. -/
def loadParse (file : List (List (String × JVal))) : List Transaction :=
  match loadRecords file with
  | some l => l
  | none => []

/-- `main.py` `FinanceManager.add_transaction`.  Returns the final state
of `self` together with the normal result or the raised error.  `today`
is `datetime.now().strftime("%Y-%m-%d")`. -/
def add_transaction (io : Bool) (s : FMState) (type_ category description : String)
    (amount : ℚ) (date : Option String) (today : String) :
    FMState × Except FMError Transaction :=
  let ty := strLower type_
  if ty ≠ "entrada" ∧ ty ≠ "saida" then
    (s, .error (.validationError "Tipo deve ser 'entrada' ou 'saida'."))
  else if amount ≤ 0 then
    (s, .error (.validationError "Valor deve ser positivo."))
  else
    let d? : Except FMError String :=
      match date with
      | none => .ok today
      | some d =>
        if (parseDate d).isSome then .ok d
        else .error (.validationError "time data does not match format")
    match d? with
    | .error e => (s, .error e)
    | .ok d =>
      let newTx : Transaction :=
        ⟨nextId s.transactions, d, ty, strTrim category, strTrim description, amount⟩
      let s' : FMState := { s with transactions := s.transactions ++ [newTx] }
      (save io s', .ok newTx)

end Main

namespace Main4

/-- `main4.py` `FinanceManager._save`: no exception handler, so an I/O
failure propagates to the caller with the file unchanged. -/
def save (io : Bool) (s : FMState) : Except FMError FMState :=
  if io then .ok { s with file := s.transactions.map asdict }
  else .error .persistenceError

/-- `main4.py` `FinanceManager.add_transaction`.  Differs from `main.py`
in the category default ("Outros" when blank) and in `_save` propagating
I/O failures after the in-memory append. -/
def add_transaction (io : Bool) (s : FMState) (type_ category description : String)
    (amount : ℚ) (date : Option String) (today : String) :
    FMState × Except FMError Transaction :=
  let ty := strLower type_
  if ty ≠ "entrada" ∧ ty ≠ "saida" then
    (s, .error (.validationError "Tipo deve ser 'entrada' ou 'saida'."))
  else if amount ≤ 0 then
    (s, .error (.validationError "Valor deve ser positivo."))
  else
    let d? : Except FMError String :=
      match date with
      | none => .ok today
      | some d =>
        if (parseDate d).isSome then .ok d
        else .error (.validationError "time data does not match format")
    match d? with
    | .error e => (s, .error e)
    | .ok d =>
      let cat := if strTrim category = "" then "Outros" else strTrim category
      let newTx : Transaction :=
        ⟨nextId s.transactions, d, ty, cat, strTrim description, amount⟩
      let s' : FMState := { s with transactions := s.transactions ++ [newTx] }
      match save io s' with
      | .ok s'' => (s'', .ok newTx)
      | .error e => (s', .error e)

end Main4

namespace Main

/-- Python truthiness of an optional-string argument: `None` and `""`
are falsy, so both leave the corresponding filter inactive. -/
def truthy : Option String → Bool
  | none => false
  | some s => strTruthy s

/-- The `start_date` block of `main.py` `list_transactions`.  The whole
block sits in a `try`: if the bound fails to parse, or any record's date
raises `ValueError` inside the list comprehension, the assignment is
abandoned and the bound is dropped (with a logged warning). -/
def applyStartFilter (ts : List Transaction) (sd : Option String) : List Transaction :=
  match sd with
  | none => ts
  | some d =>
    if !strTruthy d then ts
    else
      match parseDate d with
      | none => ts
      | some d0 =>
        if ts.all (fun t => (parseDate t.date).isSome) then
          ts.filter (fun t =>
            match parseDate t.date with
            | some dt => dateLE d0 dt
            | none => false)
        else ts

/-- The `end_date` block of `main.py` `list_transactions`, same
exception structure as the start block. -/
def applyEndFilter (ts : List Transaction) (ed : Option String) : List Transaction :=
  match ed with
  | none => ts
  | some d =>
    if !strTruthy d then ts
    else
      match parseDate d with
      | none => ts
      | some d1 =>
        if ts.all (fun t => (parseDate t.date).isSome) then
          ts.filter (fun t =>
            match parseDate t.date with
            | some dt => dateLE dt d1
            | none => false)
        else ts

/-- `main.py` `FinanceManager.list_transactions`. -/
def list_transactions (ts : List Transaction)
    (start_date end_date type_ category : Option String) : List Transaction :=
  let f1 := applyStartFilter ts start_date
  let f2 := applyEndFilter f1 end_date
  let f3 :=
    if truthy type_ then
      f2.filter (fun t => t.type = strLower (type_.getD ""))
    else f2
  if truthy category then
    f3.filter (fun t => strLower t.category = strLower (category.getD ""))
  else f3

/-- The summary record returned by `main.py` `get_summary`. -/
structure Summary where
  total_entradas : ℚ
  total_saidas : ℚ
  saldo : ℚ
  qtd_transacoes : ℕ
deriving DecidableEq, Repr

/-- `main.py` `FinanceManager.get_summary`. -/
def get_summary (ts : List Transaction) : Summary :=
  let total_entradas := pySum ((ts.filter (fun t => t.type = "entrada")).map (·.amount))
  let total_saidas := pySum ((ts.filter (fun t => t.type = "saida")).map (·.amount))
  { total_entradas := total_entradas
    total_saidas := total_saidas
    saldo := total_entradas - total_saidas
    qtd_transacoes := ts.length }

end Main

/-- Zero-pad a number to two digits, as `strftime("%m")` does. -/
def pad2 (n : ℕ) : String :=
  if n < 10 then "0" ++ toString n else toString n

/-- Render a year as `strftime("%Y")` does for four-digit years
(the sources only ever see years parsed from four digits; the model
zero-pads below 1000, where C-library behaviour varies). -/
def pad4 (n : ℕ) : String :=
  if n < 10 then "000" ++ toString n
  else if n < 100 then "00" ++ toString n
  else if n < 1000 then "0" ++ toString n
  else toString n

/-- `dt.strftime("%Y-%m")`: the month key used by the breakdowns. -/
def monthStr (d : Date) : String := pad4 d.year ++ "-" ++ pad2 d.month

/-- The month key of a transaction's date, when the date parses. -/
def monthKey (t : Transaction) : Option String := (parseDate t.date).map monthStr

namespace Main4

/-- `dict`-style update of an (insertion-ordered) association list:
add `amt` to the income (`isIn = true`) or expense component of key `k`,
creating the key at the end when absent (`defaultdict` behaviour). -/
def bump (l : List (String × ℚ × ℚ)) (k : String) (isIn : Bool) (amt : ℚ) :
    List (String × ℚ × ℚ) :=
  match l with
  | [] => [(k, if isIn then (amt, 0) else (0, amt))]
  | (k', v) :: rest =>
    if k' = k then
      (k', if isIn then (v.1 + amt, v.2) else (v.1, v.2 + amt)) :: rest
    else (k', v) :: bump rest k isIn amt

/-- The accumulation loop of `main4.py` `_monthly_summary`.  Every
record's date is parsed (a failure raises, modelled as `none`); only
records typed "entrada" or "saida" touch the dictionary. -/
def monthlyAccum (l : List (String × ℚ × ℚ)) :
    List Transaction → Option (List (String × ℚ × ℚ))
  | [] => some l
  | t :: ts =>
    match parseDate t.date with
    | none => none
    | some d =>
      let key := monthStr d
      let l' :=
        if t.type = "entrada" then bump l key true t.amount
        else if t.type = "saida" then bump l key false t.amount
        else l
      monthlyAccum l' ts

/-- `main4.py` `FinanceManager._monthly_summary`: accumulate, then sort
the keys ascending, then attach `saldo = entradas - saidas`.  `none`
models the `ValueError` raised on an unparseable record date. -/
def monthly_summary (ts : List Transaction) :
    Option (List (String × ℚ × ℚ × ℚ)) :=
  (monthlyAccum [] ts).map (fun l =>
    (l.insertionSort (fun a b => strLe a.1 b.1 = true)).map
      (fun e => (e.1, e.2.1, e.2.2, e.2.1 - e.2.2)))

/-- `defaultdict(float)` update for `_monthly_expenses`. -/
def bumpQ (l : List (String × ℚ)) (k : String) (amt : ℚ) : List (String × ℚ) :=
  match l with
  | [] => [(k, amt)]
  | (k', v) :: rest =>
    if k' = k then (k', v + amt) :: rest
    else (k', v) :: bumpQ rest k amt

/-- The loop of `main4.py` `_monthly_expenses`: non-expense records are
skipped before their date is parsed. -/
def monthlyExpAccum (l : List (String × ℚ)) :
    List Transaction → Option (List (String × ℚ))
  | [] => some l
  | t :: ts =>
    if t.type ≠ "saida" then monthlyExpAccum l ts
    else
      match parseDate t.date with
      | none => none
      | some d => monthlyExpAccum (bumpQ l (monthStr d) t.amount) ts

/-- `main4.py` `FinanceManager._monthly_expenses`. -/
def monthly_expenses (ts : List Transaction) : Option (List (String × ℚ)) :=
  monthlyExpAccum [] ts

/-- The record returned by `main4.py` `get_basic_stats`. -/
structure BasicStats where
  total_receitas : ℚ
  total_despesas : ℚ
  saldo_atual : ℚ
  media_gasto_transacao : ℚ
  media_gasto_mensal : ℚ
  qtd_transacoes : ℕ
deriving DecidableEq, Repr

/-- `main4.py` `FinanceManager.get_basic_stats`.  `none` models the
`ValueError` propagating out of `_monthly_expenses`. -/
def get_basic_stats (ts : List Transaction) : Option BasicStats :=
  (monthly_expenses ts).map (fun gm =>
    let total_receitas := pySum ((ts.filter (fun t => t.type = "entrada")).map (·.amount))
    let gastos := (ts.filter (fun t => t.type = "saida")).map (·.amount)
    let total_despesas := pySum gastos
    { total_receitas := total_receitas
      total_despesas := total_despesas
      saldo_atual := total_receitas - total_despesas
      media_gasto_transacao := if gastos.isEmpty then 0 else pySum gastos / gastos.length
      media_gasto_mensal :=
        if gm.isEmpty then 0 else pySum (gm.map (·.2)) / gm.length
      qtd_transacoes := ts.length })

end Main4

/-- Arguments of one `add_transaction` call; `today` is the value of
`datetime.now().strftime("%Y-%m-%d")` at the moment of the call. -/
structure AddArgs where
  type_ : String
  category : String
  description : String
  amount : ℚ
  date : Option String
  today : String
deriving DecidableEq, Repr

namespace Main

/-- Run a sequence of `main.py` `add_transaction` calls, collecting each
call's result (normal return or raised error). -/
def runAdds (io : Bool) (s : FMState) :
    List AddArgs → FMState × List (Except FMError Transaction)
  | [] => (s, [])
  | a :: rest =>
    let r := add_transaction io s a.type_ a.category a.description a.amount a.date a.today
    let q := runAdds io r.1 rest
    (q.1, r.2 :: q.2)

end Main

/-- Whether a call result is a normal return. -/
def isOk : Except FMError Transaction → Bool
  | .ok _ => true
  | .error _ => false

/-- The ids of the successfully returned transactions, in call order. -/
def resIds (rs : List (Except FMError Transaction)) : List ℤ :=
  rs.filterMap (fun r => match r with | .ok t => some t.id | .error _ => none)

namespace Spec

/-- Modelled from the spec: no source file under `src/` defines a
`Remove`; the spec (§4.1) describes it for the console-menu variant:
"removes the record at a given 1-based display position, persists the
updated sequence, and returns the removed record. Fails with an
`IndexError` kind when position is out of range." -/
def remove_transaction (s : FMState) (position : ℕ) :
    FMState × Except FMError Transaction :=
  if h : 1 ≤ position ∧ position ≤ s.transactions.length then
    let t := s.transactions.get ⟨position - 1, by omega⟩
    let ts' := s.transactions.eraseIdx (position - 1)
    ({ transactions := ts', file := ts'.map asdict }, .ok t)
  else (s, .error .indexError)

/-- A date bound as the claim reads it: active when supplied, non-empty
and parseable; a supplied bound that fails to parse is treated as
absent. -/
def boundDate (b : Option String) : Option Date :=
  match b with
  | none => none
  | some s => if !strTruthy s then none else parseDate s

/-- Claim-side predicate `date >= start`; a record whose date is not a
valid date satisfies no date comparison. -/
def startOk (sd : Option String) (t : Transaction) : Bool :=
  match boundDate sd with
  | none => true
  | some d0 =>
    match parseDate t.date with
    | some dt => dateLE d0 dt
    | none => false

/-- Claim-side predicate `date <= end`. -/
def endOk (ed : Option String) (t : Transaction) : Bool :=
  match boundDate ed with
  | none => true
  | some d1 =>
    match parseDate t.date with
    | some dt => dateLE dt d1
    | none => false

/-- Claim-side predicate: kind equal to the given kind (literal
equality, as the claim words it). -/
def kindOkLit (k : Option String) (t : Transaction) : Bool :=
  if Main.truthy k then t.type = k.getD "" else true

/-- Code-side kind predicate: kind equal to the lowercased given kind. -/
def kindOkLower (k : Option String) (t : Transaction) : Bool :=
  if Main.truthy k then t.type = strLower (k.getD "") else true

/-- Claim-side predicate: category equal to the given category,
compared case-insensitively. -/
def catOk (c : Option String) (t : Transaction) : Bool :=
  if Main.truthy c then strLower t.category = strLower (c.getD "") else true

/-- `List` as the claim states it: the records satisfying the
conjunction of the supplied predicates, in insertion order. -/
def listSpec (ts : List Transaction) (sd ed k c : Option String) : List Transaction :=
  ts.filter (fun t => startOk sd t && endOk ed t && kindOkLit k t && catOk c t)

/-- `List` as amended: kind is compared after lowercasing the supplied
value (which is what the source does). -/
def listSpecAmended (ts : List Transaction) (sd ed k c : Option String) : List Transaction :=
  ts.filter (fun t => startOk sd t && endOk ed t && kindOkLower k t && catOk c t)

/-- Claim-side: sum of `amount` over Income records of month `k`. -/
def incomeInMonth (ts : List Transaction) (k : String) : ℚ :=
  ((ts.filter (fun t => t.type = "entrada" ∧ monthKey t = some k)).map (·.amount)).sum

/-- Claim-side: sum of `amount` over Expense records of month `k`. -/
def expenseInMonth (ts : List Transaction) (k : String) : ℚ :=
  ((ts.filter (fun t => t.type = "saida" ∧ monthKey t = some k)).map (·.amount)).sum

/-- Claim-side (C9): the average, over the months present in
`MonthlyBreakdown` (= `_monthly_summary`), of each month's total-expense
value; `0` if no months are present. -/
def meanExpensePerMonthSpec (ts : List Transaction) : Option ℚ :=
  (Main4.monthly_summary ts).map (fun m =>
    if m.isEmpty then 0 else (m.map (fun e => e.2.2.1)).sum / m.length)

/-- Claim-side: sum of `amount` over Income records. -/
def totalIncome (ts : List Transaction) : ℚ :=
  ((ts.filter (fun t => t.type = "entrada")).map (·.amount)).sum

/-- Claim-side: sum of `amount` over Expense records. -/
def totalExpense (ts : List Transaction) : ℚ :=
  ((ts.filter (fun t => t.type = "saida")).map (·.amount)).sum

/-- Claim-side: number of Expense records. -/
def numExpense (ts : List Transaction) : ℕ :=
  (ts.filter (fun t => t.type = "saida")).length

end Spec

/-- The month keys of the Income/Expense records whose dates parse
(the records that feed the monthly breakdown), with repetition. -/
def kindMonths (ts : List Transaction) : List String :=
  (ts.filter (fun t => t.type = "entrada" ∨ t.type = "saida")).filterMap monthKey

/-- The month keys of the Expense records whose dates parse, with
repetition. -/
def expMonths (ts : List Transaction) : List String :=
  (ts.filter (fun t => t.type = "saida")).filterMap monthKey

/-- Amended claim-side mean (C9): average of the per-month expense
totals over the months that contain at least one Expense record. -/
def meanExpensePerMonthAmended (ts : List Transaction) : ℚ :=
  if (expMonths ts).dedup.isEmpty then 0
  else ((expMonths ts).dedup.map (Spec.expenseInMonth ts)).sum / (expMonths ts).dedup.length

/-- Whether a result is a raised `ValidationError` (`ValueError`). -/
def isValidationError : Except FMError Transaction → Bool
  | .error (.validationError _) => true
  | _ => false

/-- The normal return of an operation, if any. -/
def okValue : Except FMError Transaction → Option Transaction
  | .ok t => some t
  | .error _ => none

/-- The validation predicate of `add_transaction`: the kind is one of
the two recognized values (the source lowercases before checking, so
recognition is case-insensitive), the amount is positive, and a
supplied date parses as a valid calendar date. -/
def validAdd (ty : String) (amt : ℚ) (date : Option String) : Prop :=
  (strLower ty = "entrada" ∨ strLower ty = "saida") ∧ 0 < amt
    ∧ date.all (fun d => (parseDate d).isSome) = true

instance (ty : String) (amt : ℚ) (date : Option String) :
    Decidable (validAdd ty amt date) := by
  unfold validAdd; infer_instance

instance : DecidableEq (Except FMError Transaction) := fun a b =>
  match a, b with
  | .ok x, .ok y => decidable_of_iff (x = y) (by simp)
  | .ok _, .error _ => isFalse (by simp)
  | .error _, .ok _ => isFalse (by simp)
  | .error x, .error y => decidable_of_iff (x = y) (by simp)


/-- Association-list view of the `defaultdict` used by
`_monthly_summary`: the value stored under a key, if present. -/
def alookup (k : String) : List (String × ℚ × ℚ) → Option (ℚ × ℚ)
  | [] => none
  | (k', v) :: rest => if k' = k then some v else alookup k rest

/-- Association-list view of the `defaultdict(float)` used by
`_monthly_expenses`. -/
def alookupQ (k : String) : List (String × ℚ) → Option ℚ
  | [] => none
  | (k', v) :: rest => if k' = k then some v else alookupQ k rest

end Finance

/-! ### Shared lemmas -/

namespace Finance

lemma pySum_eq_sum (l : List ℚ) : pySum l = l.sum := by
  rw [pySum, ← List.sum_eq_foldl]

lemma save_transactions (io : Bool) (s : FMState) :
    (Main.save io s).transactions = s.transactions := by
  cases io <;> simp [Main.save]

lemma add_main_ok_structure (io : Bool) (s : FMState) (ty cat desc : String)
    (amt : ℚ) (date : Option String) (today : String) (s' : FMState) (t : Transaction)
    (h : Main.add_transaction io s ty cat desc amt date today = (s', .ok t)) :
    t = ⟨nextId s.transactions, date.getD today, strLower ty, strTrim cat, strTrim desc, amt⟩
    ∧ s' = Main.save io { s with transactions := s.transactions ++ [t] }
    ∧ validAdd ty amt date := by
  unfold Main.add_transaction at h
  by_cases h1 : strLower ty ≠ "entrada" ∧ strLower ty ≠ "saida"
  · simp [h1] at h
  · by_cases h2 : amt ≤ 0
    · simp [h1, h2] at h
    · cases date with
      | none =>
        simp [h1, h2] at h
        obtain ⟨hs, ht⟩ := h
        refine ⟨ht.symm, by rw [← hs, ht], ?_, not_le.mp h2, by simp⟩
        tauto
      | some d =>
        by_cases hd : (parseDate d).isSome
        · simp [h1, h2, hd] at h
          obtain ⟨hs, ht⟩ := h
          refine ⟨ht.symm, by rw [← hs, ht], ?_, not_le.mp h2, by simp [hd]⟩
          tauto
        · simp [h1, h2, hd] at h

lemma le_maxOf (l : List ℤ) (x : ℤ) (hx : x ∈ l) : x ≤ maxOf l := by
  induction l with
  | nil => cases hx
  | cons a rest ih =>
    cases rest with
    | nil => simp at hx; simp [maxOf, hx]
    | cons b rest' =>
      rcases List.mem_cons.mp hx with h | h
      · simp [maxOf, h]
      · calc x ≤ maxOf (b :: rest') := ih h
          _ ≤ maxOf (a :: b :: rest') := by simp [maxOf]

lemma lt_nextId (ts : List Transaction) (x : ℤ) (hx : x ∈ txIds ts) : x < nextId ts := by
  cases ts with
  | nil => simp [txIds] at hx
  | cons a rest =>
    have h := le_maxOf (txIds (a :: rest)) x hx
    have : nextId (a :: rest) = maxOf (txIds (a :: rest)) + 1 := rfl
    omega

lemma runAdds_ok_structure (io : Bool) (args : List AddArgs) :
    ∀ s : FMState, ((Main.runAdds io s args).2).all isOk = true →
      txIds (Main.runAdds io s args).1.transactions
          = txIds s.transactions ++ resIds (Main.runAdds io s args).2
      ∧ (∀ x ∈ txIds s.transactions, ∀ y ∈ resIds (Main.runAdds io s args).2, x < y)
      ∧ List.Pairwise (· < ·) (resIds (Main.runAdds io s args).2) := by
  induction args with
  | nil =>
    intro s _
    simp [Main.runAdds, resIds]
  | cons a rest ih =>
    intro s hok
    have hrun : Main.runAdds io s (a :: rest)
        = ((Main.runAdds io (Main.add_transaction io s a.type_ a.category a.description
              a.amount a.date a.today).1 rest).1,
           (Main.add_transaction io s a.type_ a.category a.description
              a.amount a.date a.today).2
             :: (Main.runAdds io (Main.add_transaction io s a.type_ a.category a.description
              a.amount a.date a.today).1 rest).2) := rfl
    set r := Main.add_transaction io s a.type_ a.category a.description a.amount a.date a.today
      with hr
    rw [hrun] at hok ⊢
    simp only [List.all_cons, Bool.and_eq_true] at hok
    obtain ⟨hok1, hok2⟩ := hok
    cases hres : r.2 with
    | error e => rw [hres] at hok1; simp [isOk] at hok1
    | ok t =>
      have hadd : Main.add_transaction io s a.type_ a.category a.description a.amount
          a.date a.today = (r.1, .ok t) := by
        rw [← hres]
      obtain ⟨ht, hs', _⟩ := add_main_ok_structure io s _ _ _ _ _ _ _ _ hadd
      have htrans : txIds r.1.transactions = txIds s.transactions ++ [t.id] := by
        rw [hs', save_transactions]
        simp [txIds]
      have htid : ∀ x ∈ txIds s.transactions, x < t.id := by
        intro x hx
        have hid : t.id = nextId s.transactions := by rw [ht]
        rw [hid]
        exact lt_nextId _ _ hx
      obtain ⟨ih1, ih2, ih3⟩ := ih r.1 hok2
      have hres' : ∀ L, resIds (Except.ok t :: L) = t.id :: resIds L := by
        intro L; simp [resIds]
      dsimp only
      refine ⟨?_, ?_, ?_⟩
      · rw [hres', ih1, htrans]
        simp
      · intro x hx y hy
        rw [hres'] at hy
        rcases List.mem_cons.mp hy with h | h
        · rw [h]; exact htid x hx
        · exact ih2 x (by rw [htrans]; exact List.mem_append_left _ hx) y h
      · rw [hres']
        refine List.pairwise_cons.mpr ⟨?_, ih3⟩
        intro y hy
        exact ih2 t.id (by rw [htrans]; simp) y hy

/-! ### C1 -/

/-- C1: `Add` is all-or-nothing.  When the (case-insensitively)
recognized kind check, the positivity check on `amount`, or the parse of
a supplied `date` fails, `add_transaction` raises a `ValueError`
(`ValidationError`) and leaves the in-memory sequence and the backing
file exactly as they were; otherwise it appends exactly one new record
and returns it.  Stated for `main.py`'s variant under any I/O outcome,
and for `main4.py`'s variant (whose category defaults to "Outros" when
blank) with the save succeeding. -/
theorem add_transaction_all_or_nothing (io : Bool) (s : FMState) (ty cat desc : String)
    (amt : ℚ) (date : Option String) (today : String) :
    if validAdd ty amt date then
      (Main.add_transaction io s ty cat desc amt date today).1.transactions
          = s.transactions
              ++ [⟨nextId s.transactions, date.getD today, strLower ty,
                   strTrim cat, strTrim desc, amt⟩]
        ∧ (Main.add_transaction io s ty cat desc amt date today).2
          = .ok ⟨nextId s.transactions, date.getD today, strLower ty,
                 strTrim cat, strTrim desc, amt⟩
        ∧ (Main4.add_transaction true s ty cat desc amt date today).1.transactions
          = s.transactions
              ++ [⟨nextId s.transactions, date.getD today, strLower ty,
                   (if strTrim cat = "" then "Outros" else strTrim cat), strTrim desc, amt⟩]
        ∧ (Main4.add_transaction true s ty cat desc amt date today).2
          = .ok ⟨nextId s.transactions, date.getD today, strLower ty,
                 (if strTrim cat = "" then "Outros" else strTrim cat), strTrim desc, amt⟩
    else
      (Main.add_transaction io s ty cat desc amt date today).1 = s
        ∧ isValidationError (Main.add_transaction io s ty cat desc amt date today).2 = true
        ∧ (Main4.add_transaction io s ty cat desc amt date today).1 = s
        ∧ isValidationError (Main4.add_transaction io s ty cat desc amt date today).2 = true := by
  by_cases hv : validAdd ty amt date
  · simp only [if_pos hv]
    obtain ⟨hty, hamt, hdate⟩ := hv
    have h1 : ¬(strLower ty ≠ "entrada" ∧ strLower ty ≠ "saida") := by tauto
    have h2 : ¬(amt ≤ 0) := not_le.mpr hamt
    unfold Main.add_transaction Main4.add_transaction
    cases date with
    | none =>
      cases io <;> simp [h1, h2, Main.save, Main4.save]
    | some d =>
      have hd : (parseDate d).isSome := by simpa using hdate
      cases io <;> simp [h1, h2, hd, Main.save, Main4.save]
  · simp only [if_neg hv]
    by_cases hty : strLower ty = "entrada" ∨ strLower ty = "saida"
    · by_cases hamt : 0 < amt
      · have hdate : ¬(date.all (fun d => (parseDate d).isSome) = true) :=
          fun hd => hv ⟨hty, hamt, hd⟩
        cases date with
        | none => simp at hdate
        | some d =>
          have hd : ¬((parseDate d).isSome = true) := by simpa using hdate
          have h1 : ¬(strLower ty ≠ "entrada" ∧ strLower ty ≠ "saida") := by tauto
          unfold Main.add_transaction Main4.add_transaction
          simp [h1, not_le.mpr hamt, hd, isValidationError]
      · have h1 : ¬(strLower ty ≠ "entrada" ∧ strLower ty ≠ "saida") := by tauto
        have h2 : amt ≤ 0 := not_lt.mp hamt
        unfold Main.add_transaction Main4.add_transaction
        simp [h1, h2, isValidationError]
    · have h1 : strLower ty ≠ "entrada" ∧ strLower ty ≠ "saida" := by tauto
      unfold Main.add_transaction Main4.add_transaction
      simp [h1, isValidationError]

/-! ### C2 -/

/-- C2: across any sequence of successful `Add` calls the returned ids
are strictly increasing, and starting from a store with unique ids the
ids stay unique; moreover the id assigned by a successful `Add` on any
store equals `max(existing ids) + 1`, or `1` when the store is empty
(the trailing conjunct certifies that `maxOf` is an upper bound of the
existing ids). -/
theorem add_ids_strictly_increasing (io : Bool) (s s₂ : FMState) (args : List AddArgs)
    (a : AddArgs) (t : Transaction)
    (h₁ : (txIds s.transactions).Nodup)
    (hok : ((Main.runAdds io s args).2).all isOk = true)
    (h₂ : (Main.add_transaction io s₂ a.type_ a.category a.description a.amount
            a.date a.today).2 = .ok t) :
    List.Pairwise (· < ·) (resIds (Main.runAdds io s args).2)
    ∧ (txIds (Main.runAdds io s args).1.transactions).Nodup
    ∧ t.id = (if s₂.transactions.isEmpty then 1 else maxOf (txIds s₂.transactions) + 1)
    ∧ (txIds s₂.transactions).all
        (fun x => decide (x ≤ maxOf (txIds s₂.transactions))) = true := by
  obtain ⟨ha, hb, hc⟩ := runAdds_ok_structure io args s hok
  refine ⟨hc, ?_, ?_, ?_⟩
  · rw [ha, List.nodup_append]
    refine ⟨h₁, hc.imp (fun h => ne_of_lt h), ?_⟩
    intro x hx hx'
    exact absurd rfl (ne_of_lt (hb x hx x hx'))
  · have h₂' : Main.add_transaction io s₂ a.type_ a.category a.description a.amount
        a.date a.today
        = ((Main.add_transaction io s₂ a.type_ a.category a.description a.amount
            a.date a.today).1, .ok t) := by
      rw [← h₂]
    obtain ⟨ht, _, _⟩ := add_main_ok_structure _ _ _ _ _ _ _ _ _ _ h₂'
    have hid : t.id = nextId s₂.transactions := by rw [ht]
    rw [hid]
    cases s₂.transactions with
    | nil => rfl
    | cons b rest => rfl
  · rw [List.all_eq_true]
    intro x hx
    simpa using le_maxOf _ _ hx

/-- Witness for C2 at a two-call run from the empty store and a
successful call on a store holding id 5. -/
theorem add_ids_strictly_increasing_witness :
    List.Pairwise (· < ·) (resIds (Main.runAdds true ⟨[], []⟩
        [⟨"entrada", "c", "d", 10, some "2025-01-10", "2025-06-01"⟩,
         ⟨"saida", "e", "f", 5, none, "2025-06-02"⟩]).2)
    ∧ (txIds (Main.runAdds true ⟨[], []⟩
        [⟨"entrada", "c", "d", 10, some "2025-01-10", "2025-06-01"⟩,
         ⟨"saida", "e", "f", 5, none, "2025-06-02"⟩]).1.transactions).Nodup
    ∧ (Transaction.mk 6 "2025-01-10" "entrada" "c" "d" 10).id
        = (if (FMState.mk [⟨5, "2025-01-01", "entrada", "x", "y", 3⟩] []).transactions.isEmpty
           then 1
           else maxOf (txIds (FMState.mk [⟨5, "2025-01-01", "entrada", "x", "y", 3⟩] []).transactions) + 1)
    ∧ (txIds (FMState.mk [⟨5, "2025-01-01", "entrada", "x", "y", 3⟩] []).transactions).all
        (fun x => decide (x ≤ maxOf (txIds (FMState.mk
          [⟨5, "2025-01-01", "entrada", "x", "y", 3⟩] []).transactions))) = true :=
  add_ids_strictly_increasing true ⟨[], []⟩ ⟨[⟨5, "2025-01-01", "entrada", "x", "y", 3⟩], []⟩
    [⟨"entrada", "c", "d", 10, some "2025-01-10", "2025-06-01"⟩,
     ⟨"saida", "e", "f", 5, none, "2025-06-02"⟩]
    ⟨"entrada", "c", "d", 10, some "2025-01-10", "2025-06-01"⟩
    ⟨6, "2025-01-10", "entrada", "c", "d", 10⟩
    (by simp [txIds]) (by decide) (by decide)

end Finance

namespace Finance

/-! ### C3 -/

/-- C3 counterexample: in `main.py`, `_save` catches every exception and
only logs it.  With the write failing (`io = false`), `Add` still
returns the new record normally — the caller observes no failure — while
the in-memory list has grown and the backing file is left behind. -/
theorem save_failure_swallowed_counterexample :
    (Main.add_transaction false ⟨[], []⟩ "entrada" "c" "d" 10
        (some "2025-01-10") "2025-06-01").2
      = .ok ⟨1, "2025-01-10", "entrada", "c", "d", 10⟩
    ∧ (Main.add_transaction false ⟨[], []⟩ "entrada" "c" "d" 10
        (some "2025-01-10") "2025-06-01").1
      = ⟨[⟨1, "2025-01-10", "entrada", "c", "d", 10⟩], []⟩ := by
  decide

/-- C3 amended: in the `main4.py` variant, `_save` has no handler, so an
I/O failure during the save propagates out of `Add` (the
`PersistenceError` of the spec), with the in-memory list already
extended and the file unchanged — memory is ahead of disk.  (In the
`main.py` variant the failure is caught and logged instead.) -/
theorem save_failure_surfaces_main4 (s : FMState) (ty cat desc : String)
    (amt : ℚ) (date : Option String) (today : String)
    (hv : validAdd ty amt date) :
    (Main4.add_transaction false s ty cat desc amt date today).2 = .error .persistenceError
    ∧ (Main4.add_transaction false s ty cat desc amt date today).1.transactions.length
        = s.transactions.length + 1
    ∧ (Main4.add_transaction false s ty cat desc amt date today).1.file = s.file := by
  obtain ⟨hty, hamt, hdate⟩ := hv
  have h1 : ¬(strLower ty ≠ "entrada" ∧ strLower ty ≠ "saida") := by tauto
  have h2 : ¬(amt ≤ 0) := not_le.mpr hamt
  unfold Main4.add_transaction
  cases date with
  | none => simp [h1, h2, Main4.save]
  | some d =>
    have hd : (parseDate d).isSome := by simpa using hdate
    simp [h1, h2, hd, Main4.save]

/-- Witness for C3's amended statement at a concrete failing save. -/
theorem save_failure_surfaces_main4_witness :
    (Main4.add_transaction false ⟨[], []⟩ "saida" "c" "d" 7
        (some "2025-03-01") "2025-06-01").2 = .error .persistenceError
    ∧ (Main4.add_transaction false ⟨[], []⟩ "saida" "c" "d" 7
        (some "2025-03-01") "2025-06-01").1.transactions.length
        = (FMState.mk [] []).transactions.length + 1
    ∧ (Main4.add_transaction false ⟨[], []⟩ "saida" "c" "d" 7
        (some "2025-03-01") "2025-06-01").1.file = (FMState.mk [] []).file :=
  save_failure_surfaces_main4 ⟨[], []⟩ "saida" "c" "d" 7 (some "2025-03-01") "2025-06-01"
    (by decide)

/-! ### C4 -/

/-- C4 (`Remove` modelled from the spec; no file under `src/` defines
it): for a 1-based position within range, `Remove` deletes the record at
that position, persists the updated sequence, returns the removed
record, and shrinks the store by one; for any position out of range
(in particular beyond the current count) it fails with `IndexError` and
leaves the state — memory and file — unchanged. -/
theorem remove_transaction_correct (s : FMState) (pos : ℕ) :
    if 1 ≤ pos ∧ pos ≤ s.transactions.length then
      (Spec.remove_transaction s pos).1.transactions = s.transactions.eraseIdx (pos - 1)
      ∧ (Spec.remove_transaction s pos).1.file
          = (s.transactions.eraseIdx (pos - 1)).map asdict
      ∧ okValue (Spec.remove_transaction s pos).2 = s.transactions.get? (pos - 1)
      ∧ (Spec.remove_transaction s pos).1.transactions.length + 1 = s.transactions.length
    else
      Spec.remove_transaction s pos = (s, .error .indexError) := by
  by_cases h : 1 ≤ pos ∧ pos ≤ s.transactions.length
  · simp only [if_pos h]
    unfold Spec.remove_transaction
    rw [dif_pos h]
    refine ⟨rfl, rfl, ?_, ?_⟩
    · simp only [okValue]
      rw [List.get?_eq_get (by omega)]
    · simp only [List.length_eraseIdx]
      have hlt : pos - 1 < s.transactions.length := by omega
      simp [hlt]
      omega
  · simp only [if_neg h]
    unfold Spec.remove_transaction
    rw [dif_neg h]

/-! ### C5 -/

lemma fromDict_asdict (t : Transaction) : fromDict (asdict t) = some t := rfl

lemma loadRecords_map_asdict (l : List Transaction) :
    Main.loadRecords (l.map asdict) = some l := by
  induction l with
  | nil => rfl
  | cons t rest ih => simp [Main.loadRecords, fromDict_asdict, ih]

lemma loadParse_map_asdict (l : List Transaction) :
    Main.loadParse (l.map asdict) = l := by
  unfold Main.loadParse
  rw [loadRecords_map_asdict]

/-- C5: after a successful `Add` whose save succeeds, re-loading the
backing file (deserializing every stored record with
`Transaction.from_dict`) yields exactly the in-memory sequence, record
for record and field for field. -/
theorem add_then_reload_roundtrip (s : FMState) (ty cat desc : String) (amt : ℚ)
    (date : Option String) (today : String) (t : Transaction)
    (h : (Main.add_transaction true s ty cat desc amt date today).2 = .ok t) :
    Main.loadParse (Main.add_transaction true s ty cat desc amt date today).1.file
      = (Main.add_transaction true s ty cat desc amt date today).1.transactions := by
  have h' : Main.add_transaction true s ty cat desc amt date today
      = ((Main.add_transaction true s ty cat desc amt date today).1, .ok t) := by
    rw [← h]
  obtain ⟨_, hs', _⟩ := add_main_ok_structure _ _ _ _ _ _ _ _ _ _ h'
  rw [hs']
  simp only [Main.save, if_pos rfl]
  exact loadParse_map_asdict _

/-- Witness for C5 at a concrete successful `Add` from the empty store. -/
theorem add_then_reload_roundtrip_witness :
    Main.loadParse (Main.add_transaction true ⟨[], []⟩ "entrada" "c" "d" 10
        (some "2025-01-10") "2025-06-01").1.file
      = (Main.add_transaction true ⟨[], []⟩ "entrada" "c" "d" 10
        (some "2025-01-10") "2025-06-01").1.transactions :=
  add_then_reload_roundtrip ⟨[], []⟩ "entrada" "c" "d" 10 (some "2025-01-10") "2025-06-01"
    ⟨1, "2025-01-10", "entrada", "c", "d", 10⟩ (by decide)

/-! ### C10 -/

/-- C10 counterexample: `Load` (`_load` / `from_dict`) performs no date
validation, so a record whose date is not a calendar date at all enters
the store verbatim from the backing file. -/
theorem load_date_unvalidated_counterexample :
    Main.loadParse [asdict ⟨1, "banana", "entrada", "c", "d", 10⟩]
      = [⟨1, "banana", "entrada", "c", "d", 10⟩]
    ∧ parseDate "banana" = none := by
  decide

/-- C10 amended: every record accepted via `Add` carries, at the moment
it enters the store, a date that parses under the `%Y-%m-%d` format
(the validated supplied date, or "today" as rendered by the clock);
records read from the file by `Load` are not validated. -/
theorem add_record_date_parses (io : Bool) (s : FMState) (ty cat desc : String)
    (amt : ℚ) (date : Option String) (today : String) (t : Transaction)
    (htoday : (parseDate today).isSome = true)
    (h : (Main.add_transaction io s ty cat desc amt date today).2 = .ok t) :
    (parseDate t.date).isSome = true := by
  have h' : Main.add_transaction io s ty cat desc amt date today
      = ((Main.add_transaction io s ty cat desc amt date today).1, .ok t) := by
    rw [← h]
  obtain ⟨ht, _, hv⟩ := add_main_ok_structure _ _ _ _ _ _ _ _ _ _ h'
  obtain ⟨_, _, hdate⟩ := hv
  cases date with
  | none => rw [ht]; simpa using htoday
  | some d => rw [ht]; simpa using hdate

/-- Witness for C10's amended statement at a concrete successful `Add`. -/
theorem add_record_date_parses_witness :
    (parseDate (Transaction.mk 1 "2025-01-10" "entrada" "c" "d" 10).date).isSome = true :=
  add_record_date_parses true ⟨[], []⟩ "entrada" "c" "d" 10 (some "2025-01-10")
    "2025-06-01" ⟨1, "2025-01-10", "entrada", "c", "d", 10⟩ (by decide) (by decide)

end Finance

namespace Finance

/-! ### C6 -/

/-- C6: `Summary` returns the sum of `amount` over Income records, the
sum over Expense records, their difference as the balance, and the total
record count; on the empty store all four components are `0`, and the
balance identity holds on every store. -/
theorem get_summary_correct (ts : List Transaction) :
    (Main.get_summary ts).total_entradas = Spec.totalIncome ts
    ∧ (Main.get_summary ts).total_saidas = Spec.totalExpense ts
    ∧ (Main.get_summary ts).saldo
        = (Main.get_summary ts).total_entradas - (Main.get_summary ts).total_saidas
    ∧ (Main.get_summary ts).qtd_transacoes = ts.length
    ∧ Main.get_summary [] = ⟨0, 0, 0, 0⟩ := by
  refine ⟨?_, ?_, rfl, rfl, ?_⟩
  · simp [Main.get_summary, Spec.totalIncome, pySum_eq_sum]
  · simp [Main.get_summary, Spec.totalExpense, pySum_eq_sum]
  · simp [Main.get_summary, pySum]

lemma applyStartFilter_eq (ts : List Transaction) (sd : Option String)
    (h : ∀ t ∈ ts, (parseDate t.date).isSome = true) :
    Main.applyStartFilter ts sd = ts.filter (Spec.startOk sd) := by
  cases sd with
  | none =>
    refine (List.filter_eq_self.mpr ?_).symm
    intro t _
    simp [Spec.startOk, Spec.boundDate]
  | some d =>
    unfold Main.applyStartFilter
    dsimp only
    by_cases he : strTruthy d
    · rw [if_neg (by simp [he])]
      cases hp : parseDate d with
      | none =>
        refine (List.filter_eq_self.mpr ?_).symm
        intro t _
        simp [Spec.startOk, Spec.boundDate, he, hp]
      | some d0 =>
        dsimp only
        have hall : ts.all (fun t => (parseDate t.date).isSome) = true := by
          rw [List.all_eq_true]; intro t htm; simpa using h t htm
        rw [if_pos hall]
        apply List.filter_congr
        intro t htm
        simp [Spec.startOk, Spec.boundDate, he, hp]
    · rw [if_pos (by simp [he])]
      refine (List.filter_eq_self.mpr ?_).symm
      intro t _
      simp [Spec.startOk, Spec.boundDate, he]

lemma applyEndFilter_eq (ts : List Transaction) (ed : Option String)
    (h : ∀ t ∈ ts, (parseDate t.date).isSome = true) :
    Main.applyEndFilter ts ed = ts.filter (Spec.endOk ed) := by
  cases ed with
  | none =>
    refine (List.filter_eq_self.mpr ?_).symm
    intro t _
    simp [Spec.endOk, Spec.boundDate]
  | some d =>
    unfold Main.applyEndFilter
    dsimp only
    by_cases he : strTruthy d
    · rw [if_neg (by simp [he])]
      cases hp : parseDate d with
      | none =>
        refine (List.filter_eq_self.mpr ?_).symm
        intro t _
        simp [Spec.endOk, Spec.boundDate, he, hp]
      | some d1 =>
        dsimp only
        have hall : ts.all (fun t => (parseDate t.date).isSome) = true := by
          rw [List.all_eq_true]; intro t htm; simpa using h t htm
        rw [if_pos hall]
        apply List.filter_congr
        intro t htm
        simp [Spec.endOk, Spec.boundDate, he, hp]
    · rw [if_pos (by simp [he])]
      refine (List.filter_eq_self.mpr ?_).symm
      intro t _
      simp [Spec.endOk, Spec.boundDate, he]

/-- C7 amended: on stores whose record dates all parse, `List` returns
exactly the records satisfying the conjunction of the supplied
predicates — `date >= start`, `date <= end`, kind equal to the
*lowercased* given kind, category compared case-insensitively — in
insertion order, with omitted (or unparseable, or empty) bounds imposing
no constraint; and filtering by category "food" and "Food" gives
identical results.  (On a store containing an unparseable date, a
supplied date bound is dropped wholesale — see the counterexample.) -/
theorem list_transactions_filters (ts : List Transaction) (sd ed k c : Option String)
    (h : ∀ t ∈ ts, (parseDate t.date).isSome = true) :
    Main.list_transactions ts sd ed k c = Spec.listSpecAmended ts sd ed k c
    ∧ Main.list_transactions ts sd ed k (some "food")
        = Main.list_transactions ts sd ed k (some "Food") := by
  constructor
  · have h1 := applyStartFilter_eq ts sd h
    have h2 : ∀ t ∈ ts.filter (Spec.startOk sd), (parseDate t.date).isSome = true :=
      fun t ht => h t (List.mem_of_mem_filter ht)
    have h3 := applyEndFilter_eq _ ed h2
    unfold Main.list_transactions Spec.listSpecAmended
    simp only [h1, h3, List.filter_filter]
    by_cases hk : Main.truthy k <;> by_cases hc : Main.truthy c <;>
      simp only [hk, hc, Bool.false_eq_true, Bool.true_eq_false, eq_self_iff_true,
        if_true, if_false, ite_true, ite_false, List.filter_filter] <;>
      · apply List.filter_congr
        intro t htm
        simp [Spec.kindOkLower, Spec.catOk, hk, hc, Bool.and_comm, Bool.and_left_comm,
          Bool.and_assoc]
  · rfl


/-! ### C7 -/

/-- C7 counterexample: with a record whose stored date does not parse
(reachable via `Load`), a valid supplied `start` bound makes
`parse_date(t.date)` raise inside the comprehension's `try`, so the
whole bound is dropped and the record is returned, although it satisfies
no date predicate; the claim's reading (`listSpec`) returns nothing. -/
theorem list_transactions_counterexample :
    Main.list_transactions [⟨1, "bad", "entrada", "x", "y", 10⟩]
        (some "2025-01-01") none none none
      = [⟨1, "bad", "entrada", "x", "y", 10⟩]
    ∧ Spec.listSpec [⟨1, "bad", "entrada", "x", "y", 10⟩]
        (some "2025-01-01") none none none = []
    ∧ parseDate "bad" = none := by
  decide

/-- Witness for C7's amended statement at a concrete store and filter. -/
theorem list_transactions_filters_witness :
    Main.list_transactions [⟨1, "2025-01-10", "entrada", "Food", "x", 10⟩]
        (some "2025-01-01") (some "2025-12-31") (some "entrada") (some "food")
      = Spec.listSpecAmended [⟨1, "2025-01-10", "entrada", "Food", "x", 10⟩]
        (some "2025-01-01") (some "2025-12-31") (some "entrada") (some "food")
    ∧ Main.list_transactions [⟨1, "2025-01-10", "entrada", "Food", "x", 10⟩]
        (some "2025-01-01") (some "2025-12-31") (some "entrada") (some "food")
      = Main.list_transactions [⟨1, "2025-01-10", "entrada", "Food", "x", 10⟩]
        (some "2025-01-01") (some "2025-12-31") (some "entrada") (some "Food") :=
  list_transactions_filters _ _ _ _ _ (by decide)

end Finance

namespace Finance

lemma char_toNat_inj {a b : Char} (h : a.toNat = b.toNat) : a = b := by
  apply Char.ext
  exact UInt32.ext h

lemma listLexLt_trichotomy : ∀ as bs : List Char,
    listLexLt as bs = true ∨ listLexLt bs as = true ∨ as = bs := by
  intro as
  induction as with
  | nil =>
    intro bs
    cases bs with
    | nil => right; right; rfl
    | cons b bs' => left; simp [listLexLt]
  | cons a as' ih =>
    intro bs
    cases bs with
    | nil => right; left; simp [listLexLt]
    | cons b bs' =>
      by_cases hab : a = b
      · subst hab
        rcases ih bs' with h | h | h
        · left; simp [listLexLt, h]
        · right; left; simp [listLexLt, h]
        · right; right; rw [h]
      · have hne : a.toNat ≠ b.toNat := fun he => hab (char_toNat_inj he)
        rcases Nat.lt_or_ge a.toNat b.toNat with hlt | hge
        · left; simp [listLexLt, hab, hlt]
        · right; left
          have : b.toNat < a.toNat := by omega
          simp [listLexLt, Ne.symm hab, this]

lemma listLexLt_trans : ∀ as bs cs : List Char,
    listLexLt as bs = true → listLexLt bs cs = true → listLexLt as cs = true := by
  intro as
  induction as with
  | nil =>
    intro bs cs h1 h2
    cases cs with
    | nil =>
      cases bs with
      | nil => simp [listLexLt] at h1
      | cons b bs' => simp [listLexLt] at h2
    | cons c cs' => simp [listLexLt]
  | cons a as' ih =>
    intro bs cs h1 h2
    cases bs with
    | nil => simp [listLexLt] at h1
    | cons b bs' =>
      cases cs with
      | nil => simp [listLexLt] at h2
      | cons c cs' =>
        simp only [listLexLt] at h1 h2 ⊢
        by_cases hab : a = b
        · subst hab
          rw [if_pos rfl] at h1
          by_cases hbc : a = c
          · subst hbc
            rw [if_pos rfl] at h2 ⊢
            exact ih _ _ h1 h2
          · rw [if_neg hbc] at h2 ⊢
            exact h2
        · rw [if_neg hab] at h1
          have h1' : a.toNat < b.toNat := of_decide_eq_true h1
          by_cases hbc : b = c
          · subst hbc
            rw [if_neg hab]
            exact h1
          · rw [if_neg hbc] at h2
            have h2' : b.toNat < c.toNat := of_decide_eq_true h2
            have hac : a ≠ c := by
              intro he
              subst he
              omega
            rw [if_neg hac]
            exact decide_eq_true (by omega)

lemma listLexLt_irrefl : ∀ l : List Char, listLexLt l l = false := by
  intro l
  induction l with
  | nil => rfl
  | cons x xs ih => simp [listLexLt, ih]

lemma strLt_asymm {a b : String} (h1 : strLt a b = true) (h2 : strLt b a = true) : False := by
  have h3 := listLexLt_trans _ _ _ h1 h2
  rw [listLexLt_irrefl] at h3
  exact Bool.false_ne_true h3

lemma strLe_total (a b : String) : strLe a b = true ∨ strLe b a = true := by
  rcases listLexLt_trichotomy a.data b.data with h | h | h
  · left; simp [strLe, strLt, h]
  · right; simp [strLe, strLt, h]
  · left
    have hab : a = b := by
      obtain ⟨d⟩ := a
      obtain ⟨e⟩ := b
      exact congrArg String.mk (by simpa using h)
    simp [strLe, hab]

lemma strLe_trans {a b c : String} (h1 : strLe a b = true) (h2 : strLe b c = true) :
    strLe a c = true := by
  simp only [strLe, Bool.or_eq_true, beq_iff_eq] at h1 h2 ⊢
  rcases h1 with h1 | h1
  · rcases h2 with h2 | h2
    · exact Or.inl (listLexLt_trans _ _ _ h1 h2)
    · subst h2; exact Or.inl h1
  · subst h1
    exact h2

lemma strLe_of_strLt {a b : String} (h : strLt a b = true) : strLe a b = true := by
  simp [strLe, h]

lemma strLt_of_strLe_ne {a b : String} (h : strLe a b = true) (hne : a ≠ b) :
    strLt a b = true := by
  simp only [strLe, Bool.or_eq_true, beq_iff_eq] at h
  tauto

end Finance

namespace Finance


lemma alookup_bump_self (l : List (String × ℚ × ℚ)) (k : String) (b : Bool) (amt : ℚ) :
    alookup k (Main4.bump l k b amt)
      = some (match alookup k l with
              | some v => if b then (v.1 + amt, v.2) else (v.1, v.2 + amt)
              | none => if b then (amt, 0) else (0, amt)) := by
  induction l with
  | nil => cases b <;> simp [Main4.bump, alookup]
  | cons e rest ih =>
    obtain ⟨k', v⟩ := e
    by_cases hk : k' = k
    · subst hk
      cases b <;> simp [Main4.bump, alookup]
    · simp [Main4.bump, alookup, hk, ih]

lemma alookup_bump_self_inc (l : List (String × ℚ × ℚ)) (k : String) (amt : ℚ) :
    alookup k (Main4.bump l k true amt)
      = some (match alookup k l with
              | some v => (v.1 + amt, v.2)
              | none => (amt, 0)) := by
  rw [alookup_bump_self]
  cases alookup k l <;> simp

lemma alookup_bump_self_exp (l : List (String × ℚ × ℚ)) (k : String) (amt : ℚ) :
    alookup k (Main4.bump l k false amt)
      = some (match alookup k l with
              | some v => (v.1, v.2 + amt)
              | none => (0, amt)) := by
  rw [alookup_bump_self]
  cases alookup k l <;> simp

lemma alookup_bump_other (l : List (String × ℚ × ℚ)) (k k0 : String) (b : Bool) (amt : ℚ)
    (h : k0 ≠ k) :
    alookup k (Main4.bump l k0 b amt) = alookup k l := by
  induction l with
  | nil => simp [Main4.bump, alookup, h]
  | cons e rest ih =>
    obtain ⟨k', v⟩ := e
    by_cases hk : k' = k0
    · subst hk
      simp [Main4.bump, alookup, h]
    · simp [Main4.bump, alookup, hk, ih]

lemma bump_keys (l : List (String × ℚ × ℚ)) (k : String) (b : Bool) (amt : ℚ) :
    (Main4.bump l k b amt).map Prod.fst
      = if k ∈ l.map Prod.fst then l.map Prod.fst else l.map Prod.fst ++ [k] := by
  induction l with
  | nil => simp [Main4.bump]
  | cons e rest ih =>
    obtain ⟨k', v⟩ := e
    by_cases hk : k' = k
    · subst hk
      simp [Main4.bump]
    · by_cases hm : k ∈ rest.map Prod.fst
      · simp [Main4.bump, hk, ih, hm, Ne.symm hk]
      · simp [Main4.bump, hk, ih, hm, Ne.symm hk]

lemma alookup_eq_none_iff (k : String) (l : List (String × ℚ × ℚ)) :
    alookup k l = none ↔ k ∉ l.map Prod.fst := by
  induction l with
  | nil => simp [alookup]
  | cons e rest ih =>
    obtain ⟨k', v⟩ := e
    by_cases hk : k' = k
    · subst hk; simp [alookup]
    · simp [alookup, hk, ih, Ne.symm hk]

lemma alookup_mem_nodup (l : List (String × ℚ × ℚ)) (k : String) (v : ℚ × ℚ)
    (hnd : (l.map Prod.fst).Nodup) (hm : (k, v) ∈ l) : alookup k l = some v := by
  induction l with
  | nil => cases hm
  | cons e rest ih =>
    obtain ⟨k', v'⟩ := e
    simp only [List.map_cons, List.nodup_cons] at hnd
    rcases List.mem_cons.mp hm with h | h
    · injection h with h1 h2
      subst h1
      subst h2
      simp [alookup]
    · have hk : k' ≠ k := by
        intro he
        subst he
        exact hnd.1 (by simpa using List.mem_map_of_mem Prod.fst h)
      simp only [alookup]
      rw [if_neg hk]
      exact ih hnd.2 h

end Finance

namespace Finance

lemma incomeInMonth_cons (t : Transaction) (rest : List Transaction) (k : String) :
    Spec.incomeInMonth (t :: rest) k
      = (if t.type = "entrada" ∧ monthKey t = some k then t.amount else 0)
        + Spec.incomeInMonth rest k := by
  unfold Spec.incomeInMonth
  by_cases h : t.type = "entrada" ∧ monthKey t = some k
  · rw [List.filter_cons_of_pos (by simpa using h), if_pos h]
    simp
  · rw [List.filter_cons_of_neg (by simpa using h), if_neg h]
    simp

lemma expenseInMonth_cons (t : Transaction) (rest : List Transaction) (k : String) :
    Spec.expenseInMonth (t :: rest) k
      = (if t.type = "saida" ∧ monthKey t = some k then t.amount else 0)
        + Spec.expenseInMonth rest k := by
  unfold Spec.expenseInMonth
  by_cases h : t.type = "saida" ∧ monthKey t = some k
  · rw [List.filter_cons_of_pos (by simpa using h), if_pos h]
    simp
  · rw [List.filter_cons_of_neg (by simpa using h), if_neg h]
    simp

lemma kindMonths_cons (t : Transaction) (rest : List Transaction) :
    kindMonths (t :: rest)
      = (if t.type = "entrada" ∨ t.type = "saida" then (monthKey t).toList else [])
        ++ kindMonths rest := by
  unfold kindMonths
  by_cases h : t.type = "entrada" ∨ t.type = "saida"
  · rw [List.filter_cons_of_pos (by simpa using h), if_pos h]
    cases hk : monthKey t <;> simp [List.filterMap_cons, hk]
  · rw [List.filter_cons_of_neg (by simpa using h), if_neg h]
    simp

end Finance

namespace Finance

lemma monthlyAccum_alookup : ∀ (ts : List Transaction) (l r : List (String × ℚ × ℚ)),
    Main4.monthlyAccum l ts = some r → ∀ k : String,
      alookup k r
        = match alookup k l with
          | some v => some (v.1 + Spec.incomeInMonth ts k, v.2 + Spec.expenseInMonth ts k)
          | none =>
            if k ∈ kindMonths ts then
              some (Spec.incomeInMonth ts k, Spec.expenseInMonth ts k)
            else none := by
  intro ts
  induction ts with
  | nil =>
    intro l r h k
    simp only [Main4.monthlyAccum, Option.some.injEq] at h
    subst h
    cases hl : alookup k l <;>
      simp [Spec.incomeInMonth, Spec.expenseInMonth, kindMonths, hl]
  | cons t rest ih =>
    intro l r h k
    simp only [Main4.monthlyAccum] at h
    cases hp : parseDate t.date with
    | none => rw [hp] at h; exact absurd h (by simp)
    | some d =>
      rw [hp] at h
      dsimp only at h
      have hmk : monthKey t = some (monthStr d) := by simp [monthKey, hp]
      have hinc := incomeInMonth_cons t rest k
      have hexp := expenseInMonth_cons t rest k
      have hkc := kindMonths_cons t rest
      by_cases hty1 : t.type = "entrada"
      · rw [if_pos hty1] at h
        have hty2 : ¬ t.type = "saida" := by rw [hty1]; decide
        have hkc2 : kindMonths (t :: rest) = monthStr d :: kindMonths rest := by
          rw [hkc]; simp [hty1, hmk]
        have hthis := ih _ _ h k
        by_cases hk : k = monthStr d
        · rw [← hk] at hthis hkc2
          rw [alookup_bump_self_inc] at hthis
          rw [hinc, hexp]
          have hc1 : (t.type = "entrada" ∧ monthKey t = some k) := ⟨hty1, by rw [hmk, hk]⟩
          have hc2 : ¬ (t.type = "saida" ∧ monthKey t = some k) := fun hc => hty2 hc.1
          rw [if_pos hc1, if_neg hc2]
          cases hal : alookup k l with
          | some v =>
            rw [hal] at hthis
            dsimp only at hthis
            rw [hthis]
            simp only [Option.some.injEq, Prod.mk.injEq]
            exact ⟨by ring, by ring⟩
          | none =>
            rw [hal] at hthis
            dsimp only at hthis
            rw [if_pos (by rw [hkc2]; exact List.mem_cons_self _ _), hthis]
        · rw [alookup_bump_other _ _ _ _ _ (fun he => hk he.symm)] at hthis
          have hc1 : ¬ (t.type = "entrada" ∧ monthKey t = some k) := by
            rintro ⟨-, hc⟩
            rw [hmk] at hc
            exact hk (Option.some.inj hc).symm
          have hc2 : ¬ (t.type = "saida" ∧ monthKey t = some k) := fun hc => (hty2 hc.1)
          rw [hthis, hinc, hexp, if_neg hc1, if_neg hc2]
          have hmem : (k ∈ kindMonths (t :: rest)) ↔ (k ∈ kindMonths rest) := by
            rw [hkc2, List.mem_cons]
            exact ⟨fun hc => hc.resolve_left hk, Or.inr⟩
          cases hal : alookup k l with
          | some v => simp
          | none =>
            by_cases hkm : k ∈ kindMonths rest
            · rw [if_pos hkm, if_pos (hmem.mpr hkm)]
              simp
            · rw [if_neg hkm, if_neg (fun hc => hkm (hmem.mp hc))]
      · rw [if_neg hty1] at h
        by_cases hty2 : t.type = "saida"
        · rw [if_pos hty2] at h
          have hkc2 : kindMonths (t :: rest) = monthStr d :: kindMonths rest := by
            rw [hkc]; simp [hty2, hmk]
          have hthis := ih _ _ h k
          by_cases hk : k = monthStr d
          · rw [← hk] at hthis hkc2
            rw [alookup_bump_self_exp] at hthis
            rw [hinc, hexp]
            have hc1 : ¬ (t.type = "entrada" ∧ monthKey t = some k) := fun hc => hty1 hc.1
            have hc2 : (t.type = "saida" ∧ monthKey t = some k) := ⟨hty2, by rw [hmk, hk]⟩
            rw [if_neg hc1, if_pos hc2]
            cases hal : alookup k l with
            | some v =>
              rw [hal] at hthis
              dsimp only at hthis
              rw [hthis]
              simp only [Option.some.injEq, Prod.mk.injEq]
              exact ⟨by ring, by ring⟩
            | none =>
              rw [hal] at hthis
              dsimp only at hthis
              rw [if_pos (by rw [hkc2]; exact List.mem_cons_self _ _), hthis]
          · rw [alookup_bump_other _ _ _ _ _ (fun he => hk he.symm)] at hthis
            have hc1 : ¬ (t.type = "entrada" ∧ monthKey t = some k) := fun hc => hty1 hc.1
            have hc2 : ¬ (t.type = "saida" ∧ monthKey t = some k) := by
              rintro ⟨-, hc⟩
              rw [hmk] at hc
              exact hk (Option.some.inj hc).symm
            rw [hthis, hinc, hexp, if_neg hc1, if_neg hc2]
            have hmem : (k ∈ kindMonths (t :: rest)) ↔ (k ∈ kindMonths rest) := by
              rw [hkc2, List.mem_cons]
              exact ⟨fun hc => hc.resolve_left hk, Or.inr⟩
            cases hal : alookup k l with
            | some v => simp
            | none =>
              by_cases hkm : k ∈ kindMonths rest
              · rw [if_pos hkm, if_pos (hmem.mpr hkm)]
                simp
              · rw [if_neg hkm, if_neg (fun hc => hkm (hmem.mp hc))]
        · rw [if_neg hty2] at h
          have hthis := ih _ _ h k
          have hc1 : ¬ (t.type = "entrada" ∧ monthKey t = some k) := fun hc => hty1 hc.1
          have hc2 : ¬ (t.type = "saida" ∧ monthKey t = some k) := fun hc => hty2 hc.1
          have hkc2 : kindMonths (t :: rest) = kindMonths rest := by
            rw [hkc]; simp [hty1, hty2]
          rw [hthis, hinc, hexp, if_neg hc1, if_neg hc2, hkc2]
          cases hal : alookup k l with
          | some v => simp
          | none => simp

end Finance

namespace Finance

lemma monthlyAccum_keys_nodup : ∀ (ts : List Transaction) (l r : List (String × ℚ × ℚ)),
    Main4.monthlyAccum l ts = some r → (l.map Prod.fst).Nodup → (r.map Prod.fst).Nodup := by
  intro ts
  induction ts with
  | nil =>
    intro l r h hnd
    simp only [Main4.monthlyAccum, Option.some.injEq] at h
    subst h
    exact hnd
  | cons t rest ih =>
    intro l r h hnd
    simp only [Main4.monthlyAccum] at h
    cases hp : parseDate t.date with
    | none => rw [hp] at h; exact absurd h (by simp)
    | some d =>
      rw [hp] at h
      dsimp only at h
      have hbn : ∀ b amt, ((Main4.bump l (monthStr d) b amt).map Prod.fst).Nodup := by
        intro b amt
        rw [bump_keys]
        by_cases hm : monthStr d ∈ l.map Prod.fst
        · rw [if_pos hm]; exact hnd
        · rw [if_neg hm]
          rw [List.nodup_append]
          exact ⟨hnd, List.nodup_singleton _, by simpa using hm⟩
      by_cases hty1 : t.type = "entrada"
      · rw [if_pos hty1] at h
        exact ih _ _ h (hbn true t.amount)
      · rw [if_neg hty1] at h
        by_cases hty2 : t.type = "saida"
        · rw [if_pos hty2] at h
          exact ih _ _ h (hbn false t.amount)
        · rw [if_neg hty2] at h
          exact ih _ _ h hnd

lemma monthlyAccum_nil_alookup (ts : List Transaction) (acc : List (String × ℚ × ℚ))
    (h : Main4.monthlyAccum [] ts = some acc) (k : String) :
    alookup k acc
      = (if k ∈ kindMonths ts then
          some (Spec.incomeInMonth ts k, Spec.expenseInMonth ts k)
         else none) := by
  have := monthlyAccum_alookup ts [] acc h k
  simpa [alookup] using this

lemma monthlyAccum_nil_keys (ts : List Transaction) (acc : List (String × ℚ × ℚ))
    (h : Main4.monthlyAccum [] ts = some acc) (k : String) :
    k ∈ acc.map Prod.fst ↔ k ∈ kindMonths ts := by
  have hl := monthlyAccum_nil_alookup ts acc h k
  constructor
  · intro hm
    by_contra hc
    rw [if_neg hc] at hl
    exact absurd ((alookup_eq_none_iff k acc).mp hl) (by simpa using hm)
  · intro hm
    rw [if_pos hm] at hl
    by_contra hc
    rw [(alookup_eq_none_iff k acc).mpr hc] at hl
    exact Option.noConfusion hl

end Finance

namespace Finance

/-! ### C8 -/

/-- C8 amended: when `_monthly_summary` succeeds (every record's date
parses), its keys are strictly increasing in the code-point
lexicographic string order (`strLt`, Python's `<` on `str`), they are
exactly the distinct "YYYY-MM" months of the records whose kind is
Income or Expense (records of any other kind, reachable via `Load`,
contribute no key), and each month's entry carries the Income sum, the
Expense sum, and their difference as balance.  The year hypothesis
restricts to four-digit years, where the model's zero-padded rendering
of `strftime("%Y")` agrees with every platform. -/
theorem monthly_breakdown_correct (ts : List Transaction) (m : List (String × ℚ × ℚ × ℚ))
    (hyears : ts.all (fun t => 1000 ≤ ((parseDate t.date).getD ⟨1000, 1, 1⟩).year) = true)
    (hm : Main4.monthly_summary ts = some m) :
    List.Pairwise (fun a b => strLt a b = true) (m.map Prod.fst)
    ∧ (m.map Prod.fst).Perm (kindMonths ts).dedup
    ∧ m.all (fun e => decide (e.2.1 = Spec.incomeInMonth ts e.1
        ∧ e.2.2.1 = Spec.expenseInMonth ts e.1
        ∧ e.2.2.2 = e.2.1 - e.2.2.1)) = true := by
  unfold Main4.monthly_summary at hm
  cases hacc : Main4.monthlyAccum [] ts with
  | none => rw [hacc] at hm; exact absurd hm (by simp)
  | some acc =>
    rw [hacc] at hm
    simp only [Option.map_some', Option.some.injEq] at hm
    have hnd : (acc.map Prod.fst).Nodup :=
      monthlyAccum_keys_nodup ts [] acc hacc (by simp)
    haveI htr : IsTrans (String × ℚ × ℚ) (fun a b => strLe a.1 b.1 = true) :=
      ⟨fun _ _ _ h1 h2 => strLe_trans h1 h2⟩
    haveI hto : IsTotal (String × ℚ × ℚ) (fun a b => strLe a.1 b.1 = true) :=
      ⟨fun a b => strLe_total a.1 b.1⟩
    have hsorted := List.sorted_insertionSort (fun a b => strLe a.1 b.1 = true) acc
    have hperm := List.perm_insertionSort (fun a b => strLe a.1 b.1 = true) acc
    have hkm : m.map Prod.fst
        = (List.insertionSort (fun a b => strLe a.1 b.1 = true) acc).map Prod.fst := by
      rw [← hm, List.map_map]
      rfl
    have hkperm : (m.map Prod.fst).Perm (acc.map Prod.fst) := by
      rw [hkm]
      exact hperm.map Prod.fst
    have hknd : (m.map Prod.fst).Nodup := hkperm.nodup_iff.mpr hnd
    refine ⟨?_, ?_, ?_⟩
    · have hle : List.Pairwise (fun a b : String => strLe a b = true) (m.map Prod.fst) := by
        rw [hkm]
        exact List.Pairwise.map Prod.fst (fun a b h => h) hsorted
      exact (hle.and hknd).imp (fun h => strLt_of_strLe_ne h.1 h.2)
    · refine hkperm.trans ?_
      refine (List.perm_ext_iff_of_nodup hnd (List.nodup_dedup _)).mpr ?_
      intro k
      rw [List.mem_dedup]
      exact monthlyAccum_nil_keys ts acc hacc k
    · rw [List.all_eq_true]
      intro e he
      rw [← hm] at he
      obtain ⟨p, hp, hpe⟩ := List.mem_map.mp he
      have hpacc : p ∈ acc := hperm.mem_iff.mp hp
      have hlook : alookup p.1 acc = some p.2 :=
        alookup_mem_nodup acc p.1 p.2 hnd hpacc
      have hmem : p.1 ∈ kindMonths ts := by
        rw [← monthlyAccum_nil_keys ts acc hacc p.1]
        exact List.mem_map_of_mem Prod.fst hpacc
      rw [monthlyAccum_nil_alookup ts acc hacc p.1, if_pos hmem] at hlook
      have hp2 : p.2 = (Spec.incomeInMonth ts p.1, Spec.expenseInMonth ts p.1) :=
        Option.some.inj hlook.symm
      rw [← hpe]
      refine decide_eq_true ?_
      dsimp only
      rw [hp2]
      exact ⟨rfl, rfl, rfl⟩

end Finance

namespace Finance

/-- C8 counterexample: a record whose type is neither "entrada" nor
"saida" (reachable verbatim via `Load`) contributes no key, so its month
is missing from the breakdown even though it occurs among the records'
(parseable) dates. -/
theorem monthly_breakdown_counterexample :
    Main4.monthly_summary [⟨1, "2025-03-10", "transfer", "c", "d", 50⟩] = some []
    ∧ [⟨1, "2025-03-10", "transfer", "c", "d", 50⟩].filterMap monthKey = ["2025-03"]
    ∧ Main.loadParse [asdict ⟨1, "2025-03-10", "transfer", "c", "d", 50⟩]
        = [⟨1, "2025-03-10", "transfer", "c", "d", 50⟩] := by
  decide

/-- Witness for C8's amended statement at a concrete two-month store. -/
theorem monthly_breakdown_correct_witness :
    List.Pairwise (fun a b => strLt a b = true)
      (([("2025-01", (3:ℚ), (0:ℚ), (3:ℚ) - 0), ("2025-02", (0:ℚ), (7:ℚ), (0:ℚ) - 7)]).map Prod.fst)
    ∧ ((([("2025-01", (3:ℚ), (0:ℚ), (3:ℚ) - 0), ("2025-02", (0:ℚ), (7:ℚ), (0:ℚ) - 7)]).map Prod.fst).Perm
        (kindMonths [⟨1, "2025-02-10", "saida", "c", "d", 7⟩,
                     ⟨2, "2025-01-10", "entrada", "c", "d", 3⟩]).dedup)
    ∧ ([("2025-01", (3:ℚ), (0:ℚ), (3:ℚ) - 0), ("2025-02", (0:ℚ), (7:ℚ), (0:ℚ) - 7)]).all
        (fun e => decide (e.2.1 = Spec.incomeInMonth [⟨1, "2025-02-10", "saida", "c", "d", 7⟩,
                     ⟨2, "2025-01-10", "entrada", "c", "d", 3⟩] e.1
          ∧ e.2.2.1 = Spec.expenseInMonth [⟨1, "2025-02-10", "saida", "c", "d", 7⟩,
                     ⟨2, "2025-01-10", "entrada", "c", "d", 3⟩] e.1
          ∧ e.2.2.2 = e.2.1 - e.2.2.1)) = true :=
  monthly_breakdown_correct
    [⟨1, "2025-02-10", "saida", "c", "d", 7⟩, ⟨2, "2025-01-10", "entrada", "c", "d", 3⟩]
    [("2025-01", (3:ℚ), (0:ℚ), (3:ℚ) - 0), ("2025-02", (0:ℚ), (7:ℚ), (0:ℚ) - 7)]
    (by decide) (by rfl)

end Finance

namespace Finance


lemma alookupQ_bumpQ_self (l : List (String × ℚ)) (k : String) (amt : ℚ) :
    alookupQ k (Main4.bumpQ l k amt)
      = some (match alookupQ k l with
              | some v => v + amt
              | none => amt) := by
  induction l with
  | nil => simp [Main4.bumpQ, alookupQ]
  | cons e rest ih =>
    obtain ⟨k', v⟩ := e
    by_cases hk : k' = k
    · subst hk
      simp [Main4.bumpQ, alookupQ]
    · simp [Main4.bumpQ, alookupQ, hk, ih]

lemma alookupQ_bumpQ_other (l : List (String × ℚ)) (k k0 : String) (amt : ℚ)
    (h : k0 ≠ k) :
    alookupQ k (Main4.bumpQ l k0 amt) = alookupQ k l := by
  induction l with
  | nil => simp [Main4.bumpQ, alookupQ, h]
  | cons e rest ih =>
    obtain ⟨k', v⟩ := e
    by_cases hk : k' = k0
    · subst hk
      simp [Main4.bumpQ, alookupQ, h]
    · simp [Main4.bumpQ, alookupQ, hk, ih]

lemma bumpQ_keys (l : List (String × ℚ)) (k : String) (amt : ℚ) :
    (Main4.bumpQ l k amt).map Prod.fst
      = if k ∈ l.map Prod.fst then l.map Prod.fst else l.map Prod.fst ++ [k] := by
  induction l with
  | nil => simp [Main4.bumpQ]
  | cons e rest ih =>
    obtain ⟨k', v⟩ := e
    by_cases hk : k' = k
    · subst hk
      simp [Main4.bumpQ]
    · by_cases hm : k ∈ rest.map Prod.fst
      · simp [Main4.bumpQ, hk, ih, hm, Ne.symm hk]
      · simp [Main4.bumpQ, hk, ih, hm, Ne.symm hk]

lemma alookupQ_eq_none_iff (k : String) (l : List (String × ℚ)) :
    alookupQ k l = none ↔ k ∉ l.map Prod.fst := by
  induction l with
  | nil => simp [alookupQ]
  | cons e rest ih =>
    obtain ⟨k', v⟩ := e
    by_cases hk : k' = k
    · subst hk; simp [alookupQ]
    · simp [alookupQ, hk, ih, Ne.symm hk]

lemma alookupQ_mem_nodup (l : List (String × ℚ)) (k : String) (v : ℚ)
    (hnd : (l.map Prod.fst).Nodup) (hm : (k, v) ∈ l) : alookupQ k l = some v := by
  induction l with
  | nil => cases hm
  | cons e rest ih =>
    obtain ⟨k', v'⟩ := e
    simp only [List.map_cons, List.nodup_cons] at hnd
    rcases List.mem_cons.mp hm with h | h
    · injection h with h1 h2
      subst h1
      subst h2
      simp [alookupQ]
    · have hk : k' ≠ k := by
        intro he
        subst he
        exact hnd.1 (by simpa using List.mem_map_of_mem Prod.fst h)
      simp only [alookupQ]
      rw [if_neg hk]
      exact ih hnd.2 h

lemma expMonths_cons (t : Transaction) (rest : List Transaction) :
    expMonths (t :: rest)
      = (if t.type = "saida" then (monthKey t).toList else []) ++ expMonths rest := by
  unfold expMonths
  by_cases h : t.type = "saida"
  · rw [List.filter_cons_of_pos (by simpa using h), if_pos h]
    cases hk : monthKey t <;> simp [List.filterMap_cons, hk]
  · rw [List.filter_cons_of_neg (by simpa using h), if_neg h]
    simp

end Finance

namespace Finance

lemma monthlyExpAccum_alookup : ∀ (ts : List Transaction) (l r : List (String × ℚ)),
    Main4.monthlyExpAccum l ts = some r → ∀ k : String,
      alookupQ k r
        = match alookupQ k l with
          | some v => some (v + Spec.expenseInMonth ts k)
          | none =>
            if k ∈ expMonths ts then some (Spec.expenseInMonth ts k) else none := by
  intro ts
  induction ts with
  | nil =>
    intro l r h k
    simp only [Main4.monthlyExpAccum, Option.some.injEq] at h
    subst h
    cases hl : alookupQ k l <;> simp [Spec.expenseInMonth, expMonths, hl]
  | cons t rest ih =>
    intro l r h k
    simp only [Main4.monthlyExpAccum] at h
    have hexp := expenseInMonth_cons t rest k
    have hkc := expMonths_cons t rest
    by_cases hty : t.type = "saida"
    · rw [if_neg (by simpa using hty)] at h
      cases hp : parseDate t.date with
      | none => rw [hp] at h; exact absurd h (by simp)
      | some d =>
        rw [hp] at h
        dsimp only at h
        have hmk : monthKey t = some (monthStr d) := by simp [monthKey, hp]
        have hkc2 : expMonths (t :: rest) = monthStr d :: expMonths rest := by
          rw [hkc]; simp [hty, hmk]
        have hthis := ih _ _ h k
        by_cases hk : k = monthStr d
        · rw [← hk] at hthis hkc2
          rw [alookupQ_bumpQ_self] at hthis
          rw [hexp]
          have hc2 : (t.type = "saida" ∧ monthKey t = some k) := ⟨hty, by rw [hmk, hk]⟩
          rw [if_pos hc2]
          cases hal : alookupQ k l with
          | some v =>
            rw [hal] at hthis
            dsimp only at hthis
            rw [hthis]
            simp only [Option.some.injEq]
            ring
          | none =>
            rw [hal] at hthis
            dsimp only at hthis
            rw [if_pos (by rw [hkc2]; exact List.mem_cons_self _ _), hthis]
        · rw [alookupQ_bumpQ_other _ _ _ _ (fun he => hk he.symm)] at hthis
          have hc2 : ¬ (t.type = "saida" ∧ monthKey t = some k) := by
            rintro ⟨-, hc⟩
            rw [hmk] at hc
            exact hk (Option.some.inj hc).symm
          rw [hthis, hexp, if_neg hc2]
          have hmem : (k ∈ expMonths (t :: rest)) ↔ (k ∈ expMonths rest) := by
            rw [hkc2, List.mem_cons]
            exact ⟨fun hc => hc.resolve_left hk, Or.inr⟩
          cases hal : alookupQ k l with
          | some v => simp
          | none =>
            by_cases hkm : k ∈ expMonths rest
            · rw [if_pos hkm, if_pos (hmem.mpr hkm)]
              simp
            · rw [if_neg hkm, if_neg (fun hc => hkm (hmem.mp hc))]
    · rw [if_pos (by simpa using hty)] at h
      have hthis := ih _ _ h k
      have hc2 : ¬ (t.type = "saida" ∧ monthKey t = some k) := fun hc => hty hc.1
      have hkc2 : expMonths (t :: rest) = expMonths rest := by
        rw [hkc]; simp [hty]
      rw [hthis, hexp, if_neg hc2, hkc2]
      cases hal : alookupQ k l with
      | some v => simp
      | none => simp

lemma monthlyExpAccum_keys_nodup : ∀ (ts : List Transaction) (l r : List (String × ℚ)),
    Main4.monthlyExpAccum l ts = some r → (l.map Prod.fst).Nodup → (r.map Prod.fst).Nodup := by
  intro ts
  induction ts with
  | nil =>
    intro l r h hnd
    simp only [Main4.monthlyExpAccum, Option.some.injEq] at h
    subst h
    exact hnd
  | cons t rest ih =>
    intro l r h hnd
    simp only [Main4.monthlyExpAccum] at h
    by_cases hty : t.type = "saida"
    · rw [if_neg (by simpa using hty)] at h
      cases hp : parseDate t.date with
      | none => rw [hp] at h; exact absurd h (by simp)
      | some d =>
        rw [hp] at h
        dsimp only at h
        refine ih _ _ h ?_
        rw [bumpQ_keys]
        by_cases hm : monthStr d ∈ l.map Prod.fst
        · rw [if_pos hm]; exact hnd
        · rw [if_neg hm]
          rw [List.nodup_append]
          exact ⟨hnd, List.nodup_singleton _, by simpa using hm⟩
    · rw [if_pos (by simpa using hty)] at h
      exact ih _ _ h hnd

lemma monthlyExpAccum_nil_alookup (ts : List Transaction) (gm : List (String × ℚ))
    (h : Main4.monthly_expenses ts = some gm) (k : String) :
    alookupQ k gm
      = (if k ∈ expMonths ts then some (Spec.expenseInMonth ts k) else none) := by
  have := monthlyExpAccum_alookup ts [] gm h k
  simpa [alookupQ] using this

lemma monthlyExpAccum_nil_keys (ts : List Transaction) (gm : List (String × ℚ))
    (h : Main4.monthly_expenses ts = some gm) (k : String) :
    k ∈ gm.map Prod.fst ↔ k ∈ expMonths ts := by
  have hl := monthlyExpAccum_nil_alookup ts gm h k
  constructor
  · intro hm
    by_contra hc
    rw [if_neg hc] at hl
    exact absurd ((alookupQ_eq_none_iff k gm).mp hl) (by simpa using hm)
  · intro hm
    rw [if_pos hm] at hl
    by_contra hc
    rw [(alookupQ_eq_none_iff k gm).mpr hc] at hl
    exact Option.noConfusion hl

end Finance

namespace Finance

/-! ### C9 -/

/-- C9 amended: when `get_basic_stats` succeeds, `totalExpense` is the
sum of Expense amounts, `meanExpensePerTransaction` is `totalExpense`
divided by the number of Expense records (`0` if there are none), and
`meanExpensePerMonth` is the average of the per-month expense totals
over the months that contain at least one Expense record (`0` when
there is none) — not over all months present in `MonthlyBreakdown`. -/
theorem basic_stats_means (ts : List Transaction)
    (h : (Main4.get_basic_stats ts).isSome = true) :
    (Main4.get_basic_stats ts).map (fun st => st.total_despesas)
        = some (Spec.totalExpense ts)
    ∧ (Main4.get_basic_stats ts).map (fun st => st.media_gasto_transacao)
        = some (if Spec.numExpense ts = 0 then 0
                else Spec.totalExpense ts / Spec.numExpense ts)
    ∧ (Main4.get_basic_stats ts).map (fun st => st.media_gasto_mensal)
        = some (meanExpensePerMonthAmended ts) := by
  unfold Main4.get_basic_stats at h ⊢
  cases hacc : Main4.monthly_expenses ts with
  | none => rw [hacc] at h; simp at h
  | some gm =>
    simp only [Option.map_some', Option.some.injEq]
    have hgastos : ((ts.filter (fun t => t.type = "saida")).map (·.amount)).length
        = Spec.numExpense ts := by
      simp [Spec.numExpense]
    have hsum : pySum ((ts.filter (fun t => t.type = "saida")).map (·.amount))
        = Spec.totalExpense ts := by
      rw [pySum_eq_sum]; rfl
    have hnd : (gm.map Prod.fst).Nodup :=
      monthlyExpAccum_keys_nodup ts [] gm hacc (by simp)
    have hkperm : (gm.map Prod.fst).Perm (expMonths ts).dedup := by
      refine (List.perm_ext_iff_of_nodup hnd (List.nodup_dedup _)).mpr ?_
      intro k
      rw [List.mem_dedup]
      exact monthlyExpAccum_nil_keys ts gm hacc k
    have hvals : gm.map Prod.snd = (gm.map Prod.fst).map (Spec.expenseInMonth ts) := by
      rw [List.map_map]
      refine List.map_eq_map_iff.mpr ?_
      intro e he
      have hmem : e.1 ∈ expMonths ts := by
        rw [← monthlyExpAccum_nil_keys ts gm hacc e.1]
        exact List.mem_map_of_mem Prod.fst he
      have hlook : alookupQ e.1 gm = some e.2 :=
        alookupQ_mem_nodup gm e.1 e.2 hnd he
      rw [monthlyExpAccum_nil_alookup ts gm hacc e.1, if_pos hmem] at hlook
      exact (Option.some.inj hlook).symm
    have hvsum : (gm.map Prod.snd).sum
        = ((expMonths ts).dedup.map (Spec.expenseInMonth ts)).sum := by
      rw [hvals]
      exact (hkperm.map (Spec.expenseInMonth ts)).sum_eq
    have hlen : gm.length = (expMonths ts).dedup.length := by
      have := hkperm.length_eq
      simpa using this
    have hemp : gm.isEmpty = (expMonths ts).dedup.isEmpty := by
      rcases hg : gm with - | ⟨e, rest⟩
      · subst hg
        have : (expMonths ts).dedup.length = 0 := by
          rw [← hlen]
          rfl
        simp [List.isEmpty_iff, List.length_eq_zero.mp this]
      · subst hg
        have : (expMonths ts).dedup.length = rest.length + 1 := by
          rw [← hlen]; rfl
        rcases hd : (expMonths ts).dedup with - | ⟨x, xs⟩
        · rw [hd] at this; simp at this
        · simp [List.isEmpty_iff]
    refine ⟨hsum, ?_, ?_⟩
    · dsimp only
      by_cases hge : ((ts.filter (fun t => t.type = "saida")).map (·.amount)).isEmpty
      · rw [if_pos hge]
        have hz : Spec.numExpense ts = 0 := by
          rw [← hgastos]
          simpa [List.isEmpty_iff, List.length_eq_zero] using hge
        rw [if_pos hz]
      · rw [if_neg hge]
        have hz : ¬ Spec.numExpense ts = 0 := by
          rw [← hgastos]
          intro hc
          exact hge (by simpa [List.isEmpty_iff, List.length_eq_zero] using hc)
        rw [if_neg hz, hsum, hgastos]
    · dsimp only
      unfold meanExpensePerMonthAmended
      have hvsum2 : (gm.map (fun x : String × ℚ => x.2)).sum
          = ((expMonths ts).dedup.map (Spec.expenseInMonth ts)).sum := hvsum
      by_cases hge : gm.isEmpty
      · rw [if_pos hge, if_pos (hemp ▸ hge)]
      · rw [if_neg hge, if_neg (hemp ▸ hge)]
        rw [pySum_eq_sum, hvsum2, hlen]

/-- C9 counterexample: with one Income month (2025-01) and one Expense
month (2025-02, total 100), the claim's mean over the months of
`MonthlyBreakdown` is (0 + 100) / 2 = 50, but the code averages only
over expense months and returns 100. -/
theorem basic_stats_mean_counterexample :
    (Main4.get_basic_stats [⟨1, "2025-01-10", "entrada", "c", "d", 100⟩,
        ⟨2, "2025-02-10", "saida", "c", "d", 100⟩]).map (fun st => st.media_gasto_mensal)
      = some 100
    ∧ Spec.meanExpensePerMonthSpec [⟨1, "2025-01-10", "entrada", "c", "d", 100⟩,
        ⟨2, "2025-02-10", "saida", "c", "d", 100⟩] = some 50
    ∧ ¬ ((100 : ℚ) = 50) := by
  have h1 : Main4.monthly_expenses [⟨1, "2025-01-10", "entrada", "c", "d", 100⟩,
      ⟨2, "2025-02-10", "saida", "c", "d", 100⟩] = some [("2025-02", (100 : ℚ))] := by
    decide
  have h2 : Main4.monthly_summary [⟨1, "2025-01-10", "entrada", "c", "d", 100⟩,
      ⟨2, "2025-02-10", "saida", "c", "d", 100⟩]
      = some [("2025-01", (100 : ℚ), (0 : ℚ), (100 : ℚ) - 0),
              ("2025-02", (0 : ℚ), (100 : ℚ), (0 : ℚ) - 100)] := by
    rfl
  refine ⟨?_, ?_, by norm_num⟩
  · unfold Main4.get_basic_stats
    rw [h1]
    simp [pySum]
  · unfold Spec.meanExpensePerMonthSpec
    rw [h2]
    simp only [Option.map_some', Option.some.injEq]
    norm_num

/-- Witness for C9's amended statement at a concrete store. -/
theorem basic_stats_means_witness :
    (Main4.get_basic_stats [⟨1, "2025-02-10", "saida", "c", "d", 8⟩]).map
        (fun st => st.total_despesas)
        = some (Spec.totalExpense [⟨1, "2025-02-10", "saida", "c", "d", 8⟩])
    ∧ (Main4.get_basic_stats [⟨1, "2025-02-10", "saida", "c", "d", 8⟩]).map
        (fun st => st.media_gasto_transacao)
        = some (if Spec.numExpense [⟨1, "2025-02-10", "saida", "c", "d", 8⟩] = 0 then 0
                else Spec.totalExpense [⟨1, "2025-02-10", "saida", "c", "d", 8⟩]
                  / Spec.numExpense [⟨1, "2025-02-10", "saida", "c", "d", 8⟩])
    ∧ (Main4.get_basic_stats [⟨1, "2025-02-10", "saida", "c", "d", 8⟩]).map
        (fun st => st.media_gasto_mensal)
        = some (meanExpensePerMonthAmended [⟨1, "2025-02-10", "saida", "c", "d", 8⟩]) :=
  basic_stats_means [⟨1, "2025-02-10", "saida", "c", "d", 8⟩] (by decide)

end Finance
